import Mathlib

/-!
Verification of the CoDiPack tape recording/replay core against its
specification.  The definitions below are shallow embeddings of the C++
source: `double` values are modelled as `ℚ`, identifiers as `Nat`, the raw
adjoint pointer as a total function `Nat → ℚ`, and calls that signal a
CODI_EXCEPTION return `Except`.
-/

namespace CoDiPack

/-! ## Chunked stream model (BlockData / DataInterface) -/

/--
A nested data stream, embedding the recursive `BlockData` structure
(src/include/codi/tapes/statementEvaluators/innerStatementEvaluator.hpp,
`BlockData` section): each nesting level owns one chunk with a used size
(`chunk.getUsedSize()`) and an allocated size (`chunk.getSize()`), plus a
pointer to the nested stream; the innermost nested member (the index
manager / EmptyData) carries no chunk.  The chunk's used-size counter
semantics (pushData appends one item, setUsedSize truncates) are the
documented DataInterface contract; chunk.hpp itself is not part of the
sources.
-/
inductive StreamData where
  | terminator : StreamData
  | block (used : Nat) (alloc : Nat) (nested : StreamData)
deriving DecidableEq

/-- Composite positions (`ArrayPosition` nesting, mirroring `Position =
ArrayPosition<NestedPosition>` of `BlockData`). -/
inductive StreamPos where
  | terminator : StreamPos
  | arr (data : Nat) (inner : StreamPos)
deriving DecidableEq

/-- `BlockData::getPosition`: `Position(chunk.getUsedSize(), nested->getPosition())`. -/
def getPosition : StreamData → StreamPos
  | .terminator => .terminator
  | .block used _ nested => .arr used (getPosition nested)

/-- `BlockData::getZeroPosition`: `Position(0, nested->getZeroPosition())`. -/
def getZeroPosition : StreamData → StreamPos
  | .terminator => .terminator
  | .block _ _ nested => .arr 0 (getZeroPosition nested)

/-- `BlockData::resetTo`: `chunk.setUsedSize(pos.data); nested->resetTo(pos.inner)`.
Allocated capacity is untouched.  The last equation covers the shape
mismatch the C++ type system rules out statically. -/
def resetTo : StreamData → StreamPos → StreamData
  | .terminator, _ => .terminator
  | .block _ alloc nested, .arr d inner => .block d alloc (resetTo nested inner)
  | .block used alloc nested, .terminator => .block used alloc nested

/-- `BlockData::pushData` at nesting level `level` (0 = this stream):
`chunk.pushData(data...)` appends one item to that level's chunk. -/
def pushData : StreamData → Nat → StreamData
  | .terminator, _ => .terminator
  | .block used alloc nested, 0 => .block (used + 1) alloc nested
  | .block used alloc nested, level + 1 => .block used alloc (pushData nested level)

/-- `BlockData::reserveItems`: returns `chunk.getUsedSize()` as the handle
(the `items` argument only feeds the capacity assertion). -/
def reserveItems (s : StreamData) (items : Nat) : Nat :=
  match s, items with
  | .terminator, _ => 0
  | .block used _ _, _ => used

/-- `BlockData::getPushedDataCount`: `chunk.getUsedSize() - startPos`. -/
def getPushedDataCount (s : StreamData) (startPos : Nat) : Nat :=
  match s with
  | .terminator => 0
  | .block used _ _ => used - startPos

/-- The allocated capacity of every nesting level, outermost first. -/
def allocSizes : StreamData → List Nat
  | .terminator => []
  | .block _ alloc nested => alloc :: allocSizes nested

/-- Two streams have the same nesting shape (always true for the two
C++ states of one `BlockData` object over time). -/
inductive SameShape : StreamData → StreamData → Prop where
  | terminator : SameShape .terminator .terminator
  | block {u1 a1 n1 u2 a2 n2} (h : SameShape n1 n2) :
      SameShape (.block u1 a1 n1) (.block u2 a2 n2)

/-! ## Reverse replay kernel (incrementAdjoints) -/

/--
Embedding of the loop body of `JacobianBaseTape::incrementAdjoints`
(src/include/codi/tapes/jacobianBaseTape.hpp, lines 423-426):

    while(endJacobianPos < curJacobianPos) {
      curJacobianPos -= 1;
      adjointVector[rhsIdentifiers[curJacobianPos]] += rhsJacobians[curJacobianPos] * lhsAdjoint;
    }

`jac` is the `rhsJacobians` array, `ids` the `rhsIdentifiers` array,
`a` the `lhsAdjoint` value.  Returns the updated adjoint vector and the
final `curJacobianPos`.
-/
def incrementAdjointsLoop (jac : Nat → ℚ) (ids : Nat → Nat) (a : ℚ)
    (endJacobianPos : Nat) (curJacobianPos : Nat) (adj : Nat → ℚ) : (Nat → ℚ) × Nat :=
  if h : endJacobianPos < curJacobianPos then
    let p := curJacobianPos - 1
    incrementAdjointsLoop jac ids a endJacobianPos p
      (Function.update adj (ids p) (adj (ids p) + jac p * a))
  else
    (adj, curJacobianPos)
termination_by curJacobianPos
decreasing_by
  exact Nat.sub_lt (Nat.lt_of_le_of_lt (Nat.zero_le _) h) Nat.one_pos

/--
Embedding of `JacobianBaseTape::incrementAdjoints`
(src/include/codi/tapes/jacobianBaseTape.hpp, lines 411-430).

    size_t endJacobianPos = curJacobianPos - numberOfArguments;
    CODI_ENABLE_CHECK(Config::SkipZeroAdjointEvaluation, !isTotalZero(lhsAdjoint)){
      while(endJacobianPos < curJacobianPos) { ... }
    } else {
      curJacobianPos = endJacobianPos;
    }

`CODI_ENABLE_CHECK(flag, cond)` runs the guarded block when the flag is
disabled or the condition holds; `skipZeroAdjoint` embeds the config flag
`Config::SkipZeroAdjointEvaluation` (config.h is not part of the sources).
-/
def incrementAdjoints (skipZeroAdjoint : Bool) (jac : Nat → ℚ) (ids : Nat → Nat)
    (adj : Nat → ℚ) (lhsAdjoint : ℚ) (numberOfArguments : Nat) (curJacobianPos : Nat) :
    (Nat → ℚ) × Nat :=
  let endJacobianPos := curJacobianPos - numberOfArguments
  if skipZeroAdjoint = true ∧ lhsAdjoint = 0 then
    (adj, endJacobianPos)
  else
    incrementAdjointsLoop jac ids lhsAdjoint endJacobianPos curJacobianPos adj

/-- One fused multiply-add step of the reverse sweep, applied to the
argument entry at stream position `p`. -/
def fmaStep (jac : Nat → ℚ) (ids : Nat → Nat) (a : ℚ) (adj : Nat → ℚ) (p : Nat) : Nat → ℚ :=
  Function.update adj (ids p) (adj (ids p) + jac p * a)

/-! ## Recording model (index manager, JacobianBaseTape::store) -/

/--
Modelled from the spec: the reuse index manager state of §4.2
(linearIndexManager.hpp / reuseIndexManager.hpp are not part of the
sources; only `IndexManagerInterface` is).  It keeps a free list of
reusable identifiers and a monotone counter.
-/
structure IndexManagerState where
  freeIndices : List Nat
  counter : Nat
deriving DecidableEq

/-- Modelled from the spec: `assignIndex` "pops from the free list or grows
the counter"; identifier 0 is the reserved unused sentinel, so the counter
starts handing out 1.  Returns the fresh identifier and the new state. -/
def assignIndex (im : IndexManagerState) : Nat × IndexManagerState :=
  match im.freeIndices with
  | [] => (im.counter + 1, { freeIndices := [], counter := im.counter + 1 })
  | f :: rest => (f, { freeIndices := rest, counter := im.counter })

/-- Modelled from the spec: `freeIndex` "returns an identifier to the free
list unless it is already the unused sentinel" and marks the freed
variable's identifier with the unused sentinel 0 (spec §3 lifecycle and
the constant-store scenario of §8).  Returns the variable's new
identifier and the new state. -/
def freeIndex (im : IndexManagerState) (index : Nat) : Nat × IndexManagerState :=
  if index = 0 then
    (0, im)
  else
    (0, { im with freeIndices := index :: im.freeIndices })

/-- Modelled from the spec: `copyIndex` on a policy where "copying an
identifier does not require a new statement" lets the left-hand side take
over the right-hand side's identifier.  Returns the lhs's new identifier
and the new state. -/
def copyIndex (im : IndexManagerState) (lhsIndex rhsIndex : Nat) : Nat × IndexManagerState :=
  (rhsIndex, im)

/-- Recorded tape state of `JacobianBaseTape`: activity flag
(CommonTapeImplementation), index manager, statement stream entries
(lhs identifier, argument count — the reuse-manager `Chunk2` layout of
`pushStmtData`) and Jacobian stream entries (partial, rhs identifier). -/
structure JacobianTape where
  active : Bool
  im : IndexManagerState
  stmts : List (Nat × Nat)
  jacs : List (ℚ × Nat)
deriving DecidableEq

/-- An active value (`LhsExpressionInterface` leaf): primal value and
identifier. -/
structure ActiveVar where
  value : ℚ
  identifier : Nat
deriving DecidableEq

/--
Embedding of `JacobianBaseTape::pushJacobians` together with
`PushJacobianLogic::handleJacobianOnActive`
(src/include/codi/tapes/jacobianBaseTape.hpp, lines 222-246 and 268-286):
the expression traversal yields one `(partial, identifier)` pair per
differentiable leaf (`rhsLeaves`), and an entry is pushed to the Jacobian
stream exactly when the identifier is non-zero (`Config::CheckZeroIndex`)
and the partial is non-zero (`Config::CheckJacobiIsZero`); the finiteness
filter (`Config::IgnoreInvalidJacobies`) is vacuous over `ℚ`.
-/
def pushJacobians (rhsLeaves : List (ℚ × Nat)) : List (ℚ × Nat) :=
  rhsLeaves.filter (fun leaf => decide (leaf.2 ≠ 0) && decide (leaf.1 ≠ 0))

/--
Embedding of the expression overload of `JacobianBaseTape::store`
(src/include/codi/tapes/jacobianBaseTape.hpp, lines 293-317):

    CODI_ENABLE_CHECK(Config::CheckTapeActivity, cast().isActive()) {
      statementData.reserveItems(1);
      ... jacobianStart = jacobianData.reserveItems(MaxArgs);
      pushJacobians(rhs);
      size_t numberOfArguments = jacobianData.getPushedDataCount(jacobianStart);
      if(0 != numberOfArguments) {
        indexManager.get().assignIndex(lhs.cast().getIdentifier());
        cast().pushStmtData(lhs.cast().getIdentifier(), numberOfArguments);
      } else {
        indexManager.get().freeIndex(lhs.cast().getIdentifier());
      }
    } else {
      indexManager.get().freeIndex(lhs.cast().getIdentifier());
    }
    lhs.cast().value() = rhs.cast().getValue();

The reserve/getPushedDataCount pair computes the number of entries the
traversal actually pushed, i.e. the length of `pushJacobians rhsLeaves`.
Returns the new tape state and the updated left-hand-side variable.
-/
def store (tape : JacobianTape) (lhs : ActiveVar) (rhsLeaves : List (ℚ × Nat))
    (rhsValue : ℚ) : JacobianTape × ActiveVar :=
  if tape.active then
    let pushed := pushJacobians rhsLeaves
    let numberOfArguments := pushed.length
    if numberOfArguments ≠ 0 then
      let r := assignIndex tape.im
      ({ tape with
           im := r.2,
           stmts := tape.stmts ++ [(r.1, numberOfArguments)],
           jacs := tape.jacs ++ pushed },
       { value := rhsValue, identifier := r.1 })
    else
      let r := freeIndex tape.im lhs.identifier
      ({ tape with im := r.2 }, { value := rhsValue, identifier := r.1 })
  else
    let r := freeIndex tape.im lhs.identifier
    ({ tape with im := r.2 }, { value := rhsValue, identifier := r.1 })

/--
Embedding of the copy overload of `JacobianBaseTape::store` in the
revision guarded by `IndexManager::CopyNeedsStatement || !Config::CopyOptimization`
(src/include/codi/tapes/jacobianBaseTape.hpp, lines 319-336).  A plain
active-type right-hand side traverses as the single leaf
`(1, rhs.identifier)` (the partial of a copy is 1.0).
-/
def storeCopyRev1 (copyNeedsStatement copyOptimization : Bool)
    (tape : JacobianTape) (lhs rhs : ActiveVar) : JacobianTape × ActiveVar :=
  if tape.active then
    if copyNeedsStatement || !copyOptimization then
      store tape lhs [(1, rhs.identifier)] rhs.value
    else
      let r := copyIndex tape.im lhs.identifier rhs.identifier
      ({ tape with im := r.2 }, { value := rhs.value, identifier := r.1 })
  else
    let r := freeIndex tape.im lhs.identifier
    ({ tape with im := r.2 }, { value := rhs.value, identifier := r.1 })

/--
Embedding of the copy overload of `JacobianBaseTape::store` in the
near-duplicate revision guarded by
`IndexManager::AssignNeedsStatement || !Config::AssignOptimization`
(the second `JacobianBaseTape` revision concatenated into
src/include/codi/tapes/indices/indexManagerInterface.hpp, lines 309-324).
-/
def storeCopyRev2 (assignNeedsStatement assignOptimization : Bool)
    (tape : JacobianTape) (lhs rhs : ActiveVar) : JacobianTape × ActiveVar :=
  if tape.active then
    if assignNeedsStatement || !assignOptimization then
      store tape lhs [(1, rhs.identifier)] rhs.value
    else
      let r := copyIndex tape.im lhs.identifier rhs.identifier
      ({ tape with im := r.2 }, { value := rhs.value, identifier := r.1 })
  else
    let r := freeIndex tape.im lhs.identifier
    ({ tape with im := r.2 }, { value := rhs.value, identifier := r.1 })

/-! ## Unsupported primal access and gradient access -/

/-- The error taxonomy of the spec (§7); `CODI_EXCEPTION` on a primal
access of the Jacobian-only tape is the UnsupportedOperation condition. -/
inductive CodiError where
  | UnsupportedOperation
  | ContractViolation
deriving DecidableEq

/-- Embedding of `JacobianBaseTape::evaluatePrimal`
(src/include/codi/tapes/jacobianBaseTape.hpp, lines 644-648): raises
`CODI_EXCEPTION("Accessing primal evaluation of an Jacobian tape.")`
without touching any tape state. -/
def evaluatePrimal (tape : JacobianTape) (startPos endPos : StreamPos) :
    Except CodiError Unit × JacobianTape :=
  (Except.error CodiError.UnsupportedOperation, tape)

/-- Embedding of `JacobianBaseTape::primal`
(src/include/codi/tapes/jacobianBaseTape.hpp, lines 651-667): raises
`CODI_EXCEPTION("Accessing primal vector of an Jacobian tape.")` without
touching any tape state. -/
def primal (tape : JacobianTape) (identifier : Nat) :
    Except CodiError ℚ × JacobianTape :=
  (Except.error CodiError.UnsupportedOperation, tape)

/-- Embedding of the const overload of `JacobianBaseTape::gradient`
(src/include/codi/tapes/jacobianBaseTape.hpp, lines 188-194):

    if(identifier > (Identifier)adjoints.size()) {
      return adjoints[0];
    } else {
      return adjoints[identifier];
    }

The adjoint vector is the concrete `std::vector<Gradient>`; an index read
outside its bounds is `none`. -/
def gradientConst (adjoints : List ℚ) (identifier : Nat) : Option ℚ :=
  if identifier > adjoints.length then
    adjoints[0]?
  else
    adjoints[identifier]?

/-! ## Algorithms (sweep-direction choice) -/

/-- `Algorithms::EvaluationType` (src/unnamed/part_001, lines 49-53). -/
inductive EvaluationType where
  | Forward
  | Reverse
deriving DecidableEq

/-- Embedding of `Algorithms::getEvaluationChoice`
(src/unnamed/part_001, lines 58-64): forward when `inputs <= outputs`,
else reverse. -/
def getEvaluationChoice (inputs outputs : Nat) : EvaluationType :=
  if inputs ≤ outputs then
    EvaluationType.Forward
  else
    EvaluationType.Reverse

/-- The sweep plan of `Algorithms::computeJacobian`
(src/unnamed/part_001, lines 77-131) for scalar gradients
(`gradDim = 1`): the forward branch runs one forward sweep per seeded
input (`for j = 0; j < inputSize; j += gradDim`), the reverse branch one
reverse sweep per seeded output (`for i = 0; i < outputSize; i += gradDim`),
selected by `getEvaluationChoice(inputSize, outputSize)`. -/
def computeJacobianSweeps (inputSize outputSize : Nat) : List EvaluationType :=
  match getEvaluationChoice inputSize outputSize with
  | EvaluationType.Forward => List.replicate inputSize EvaluationType.Forward
  | EvaluationType.Reverse => List.replicate outputSize EvaluationType.Reverse

/-! ## Helper lemmas -/

theorem incrementAdjointsLoop_eq_foldl (jac : Nat → ℚ) (ids : Nat → Nat) (a : ℚ)
    (endPos : Nat) : ∀ (k : Nat) (adj : Nat → ℚ),
    incrementAdjointsLoop jac ids a endPos (endPos + k) adj =
      ((List.range' endPos k).reverse.foldl (fmaStep jac ids a) adj, endPos) := by
  intro k
  induction k with
  | zero =>
    intro adj
    rw [incrementAdjointsLoop]
    simp
  | succ k ih =>
    intro adj
    rw [incrementAdjointsLoop]
    have hlt : endPos < endPos + (k + 1) := by omega
    rw [dif_pos hlt]
    have hp : endPos + (k + 1) - 1 = endPos + k := by omega
    rw [hp, ih]
    have hrange : List.range' endPos (k + 1) = List.range' endPos k ++ [endPos + k] := by
      rw [List.range'_concat]
      simp
    rw [hrange, List.reverse_append]
    simp [fmaStep]

theorem foldl_fmaStep_zero (jac : Nat → ℚ) (ids : Nat → Nat) :
    ∀ (l : List Nat) (adj : Nat → ℚ), l.foldl (fmaStep jac ids 0) adj = adj := by
  intro l
  induction l with
  | nil => intro adj; rfl
  | cons p rest ih =>
    intro adj
    rw [List.foldl_cons]
    have hstep : fmaStep jac ids 0 adj p = adj := by
      unfold fmaStep
      rw [mul_zero, add_zero, Function.update_eq_self]
    rw [hstep, ih]

theorem foldl_fmaStep_apply (jac : Nat → ℚ) (ids : Nat → Nat) (a : ℚ) :
    ∀ (l : List Nat) (adj : Nat → ℚ) (i : Nat),
    l.foldl (fmaStep jac ids a) adj i =
      adj i + (l.map (fun p => if ids p = i then jac p * a else 0)).sum := by
  intro l
  induction l with
  | nil => intro adj i; simp
  | cons p rest ih =>
    intro adj i
    rw [List.foldl_cons, ih, List.map_cons, List.sum_cons]
    have hstep : fmaStep jac ids a adj p i = adj i + (if ids p = i then jac p * a else 0) := by
      unfold fmaStep
      rw [Function.update_apply]
      by_cases h : i = ids p
      · subst h; simp
      · have h2 : ¬ ids p = i := fun hc => h hc.symm
        simp [h, h2]
    rw [hstep, add_assoc]

theorem sameShape_refl : ∀ (s : StreamData), SameShape s s := by
  intro s
  induction s with
  | terminator => exact SameShape.terminator
  | block used alloc nested ih => exact SameShape.block ih

theorem sameShape_trans : ∀ {s1 s2 s3 : StreamData},
    SameShape s1 s2 → SameShape s2 s3 → SameShape s1 s3 := by
  intro s1 s2 s3 h12 h23
  induction h12 generalizing s3 with
  | terminator => exact h23
  | block hn ih =>
    cases h23 with
    | block hn23 => exact SameShape.block (ih hn23)

theorem sameShape_pushData : ∀ (s : StreamData) (level : Nat),
    SameShape s (pushData s level) := by
  intro s
  induction s with
  | terminator => intro level; exact SameShape.terminator
  | block used alloc nested ih =>
    intro level
    cases level with
    | zero => exact SameShape.block (sameShape_refl nested)
    | succ l => exact SameShape.block (ih l)

theorem sameShape_foldl_pushData : ∀ (pushes : List Nat) (s : StreamData),
    SameShape s (pushes.foldl pushData s) := by
  intro pushes
  induction pushes with
  | nil => intro s; exact sameShape_refl s
  | cons p rest ih =>
    intro s
    rw [List.foldl_cons]
    exact sameShape_trans (sameShape_pushData s p) (ih (pushData s p))

theorem getPosition_resetTo_of_sameShape : ∀ {t s : StreamData}, SameShape t s →
    getPosition (resetTo s (getPosition t)) = getPosition t := by
  intro t s h
  induction h with
  | terminator => rfl
  | block hn ih =>
    simp only [getPosition, resetTo]
    rw [ih]

theorem allocSizes_resetTo_of_sameShape : ∀ {t s : StreamData}, SameShape t s →
    allocSizes (resetTo s (getPosition t)) = allocSizes s := by
  intro t s h
  induction h with
  | terminator => rfl
  | block hn ih =>
    simp only [getPosition, resetTo, allocSizes]
    rw [ih]

theorem foldl_pushData_replicate_zero : ∀ (k used alloc : Nat) (nested : StreamData),
    (List.replicate k 0).foldl pushData (StreamData.block used alloc nested) =
      StreamData.block (used + k) alloc nested := by
  intro k
  induction k with
  | zero => intro used alloc nested; rfl
  | succ k ih =>
    intro used alloc nested
    rw [List.replicate_succ, List.foldl_cons]
    show (List.replicate k 0).foldl pushData (StreamData.block (used + 1) alloc nested) = _
    rw [ih]
    have : used + 1 + k = used + (k + 1) := by omega
    rw [this]

theorem freeIndex_fst (im : IndexManagerState) (index : Nat) :
    (freeIndex im index).1 = 0 := by
  unfold freeIndex
  split <;> rfl

/-! ## Claim theorems -/

/--
C1: During reverse replay, each replayed statement consumes exactly its
declared count `n` of trailing argument entries (the Jacobian stream
position drops from `pos` to `pos - n`), processing them in reverse push
order (positions `pos - 1` down to `pos - n`, the reversed range), and
every consumed `(partial, identifier)` entry increments the input
identifier's adjoint slot by `partial * outputAdjoint`; pointwise, slot
`i` gains the sum of `partial * outputAdjoint` over the consumed entries
naming `i`.
-/
theorem incrementAdjoints_consumes_and_accumulates (skipZeroAdjoint : Bool)
    (jac : Nat → ℚ) (ids : Nat → Nat) (adj : Nat → ℚ) (a : ℚ)
    (n pos : Nat) (h : n ≤ pos) :
    incrementAdjoints skipZeroAdjoint jac ids adj a n pos =
      ((List.range' (pos - n) n).reverse.foldl (fmaStep jac ids a) adj, pos - n) ∧
    ∀ i, (incrementAdjoints skipZeroAdjoint jac ids adj a n pos).1 i =
      adj i +
        ((List.range' (pos - n) n).map (fun p => if ids p = i then jac p * a else 0)).sum := by
  have hpos : pos = (pos - n) + n := by omega
  have hmain : incrementAdjoints skipZeroAdjoint jac ids adj a n pos =
      ((List.range' (pos - n) n).reverse.foldl (fmaStep jac ids a) adj, pos - n) := by
    unfold incrementAdjoints
    by_cases hz : skipZeroAdjoint = true ∧ a = 0
    · rw [if_pos hz]
      obtain ⟨_, ha⟩ := hz
      subst ha
      rw [foldl_fmaStep_zero]
    · rw [if_neg hz]
      have hloop := incrementAdjointsLoop_eq_foldl jac ids a (pos - n) n adj
      rw [← hpos] at hloop
      exact hloop
  refine ⟨hmain, ?_⟩
  intro i
  rw [hmain]
  show (List.range' (pos - n) n).reverse.foldl (fmaStep jac ids a) adj i = _
  rw [foldl_fmaStep_apply, List.map_reverse, List.sum_reverse]

/-- Witness for C1 at a concrete input: one argument entry, identifier 4,
partial 3, output adjoint 2; the entry at stream position 0 is consumed
and slot 4 is incremented by 3 * 2. -/
theorem incrementAdjoints_consumes_and_accumulates_witness :
    (1 : Nat) ≤ 1 ∧
    incrementAdjoints false (fun _ => 3) (fun _ => 4) (fun _ => 0) 2 1 1 =
      ((List.range' 0 1).reverse.foldl (fmaStep (fun _ => 3) (fun _ => 4) 2) (fun _ => 0), 0) :=
  ⟨by decide,
   (incrementAdjoints_consumes_and_accumulates false (fun _ => 3) (fun _ => 4)
      (fun _ => 0) 2 1 1 (by decide)).1⟩

/--
C2: A statement whose output adjoint is exactly zero leaves every adjoint
slot unchanged during reverse replay: with the zero-adjoint skip enabled
(`Config::SkipZeroAdjointEvaluation`, asserted by the spec), the inner
accumulation of `incrementAdjoints` is skipped entirely and only the
Jacobian stream position is advanced past the statement's arguments.
-/
theorem incrementAdjoints_zero_adjoint_skips (jac : Nat → ℚ) (ids : Nat → Nat)
    (adj : Nat → ℚ) (n pos : Nat) :
    incrementAdjoints true jac ids adj 0 n pos = (adj, pos - n) := by
  unfold incrementAdjoints
  rw [if_pos ⟨rfl, rfl⟩]

/--
C3: A `store` on an active tape whose right-hand side yields zero pushed
argument entries (every leaf filtered out, e.g. a literal constant) frees
the output's identifier to the unused sentinel 0 and appends no statement
entry and no argument entry.
-/
theorem store_constant_rhs_records_nothing (tape : JacobianTape) (lhs : ActiveVar)
    (rhsLeaves : List (ℚ × Nat)) (rhsValue : ℚ)
    (hactive : tape.active = true) (hempty : pushJacobians rhsLeaves = []) :
    (store tape lhs rhsLeaves rhsValue).2.identifier = 0 ∧
    (store tape lhs rhsLeaves rhsValue).1.stmts = tape.stmts ∧
    (store tape lhs rhsLeaves rhsValue).1.jacs = tape.jacs := by
  unfold store
  rw [hactive, if_pos rfl, hempty]
  simp [freeIndex_fst]

/-- Witness for C3: an active fresh tape and a right-hand side whose two
leaves are both filtered (zero partial, respectively unused identifier). -/
theorem store_constant_rhs_records_nothing_witness :
    ((JacobianTape.mk true (IndexManagerState.mk [] 3) [] []).active = true ∧
      pushJacobians [((0 : ℚ), 3), ((2 : ℚ), 0)] = []) ∧
    ((store (JacobianTape.mk true (IndexManagerState.mk [] 3) [] [])
        (ActiveVar.mk 5 7) [((0 : ℚ), 3), ((2 : ℚ), 0)] 9).2.identifier = 0 ∧
      (store (JacobianTape.mk true (IndexManagerState.mk [] 3) [] [])
        (ActiveVar.mk 5 7) [((0 : ℚ), 3), ((2 : ℚ), 0)] 9).1.stmts = [] ∧
      (store (JacobianTape.mk true (IndexManagerState.mk [] 3) [] [])
        (ActiveVar.mk 5 7) [((0 : ℚ), 3), ((2 : ℚ), 0)] 9).1.jacs = []) :=
  ⟨⟨rfl, by decide⟩,
   store_constant_rhs_records_nothing (JacobianTape.mk true (IndexManagerState.mk [] 3) [] [])
     (ActiveVar.mk 5 7) [((0 : ℚ), 3), ((2 : ℚ), 0)] 9 rfl (by decide)⟩

/--
C4: A `store` on an inactive tape frees the output's identifier to the
unused sentinel (marking it non-differentiable) and records no statement
or argument data; moreover `store` writes the right-hand side's primal
value into the output in every case — active or inactive, with or without
pushed arguments.
-/
theorem store_inactive_frees_and_always_writes_primal (tape : JacobianTape)
    (lhs : ActiveVar) (rhsLeaves : List (ℚ × Nat)) (rhsValue : ℚ)
    (hinactive : tape.active = false) :
    ((store tape lhs rhsLeaves rhsValue).2.identifier = 0 ∧
      (store tape lhs rhsLeaves rhsValue).1.stmts = tape.stmts ∧
      (store tape lhs rhsLeaves rhsValue).1.jacs = tape.jacs) ∧
    ∀ (t2 : JacobianTape) (l2 : ActiveVar) (rl2 : List (ℚ × Nat)) (v2 : ℚ),
      (store t2 l2 rl2 v2).2.value = v2 := by
  constructor
  · unfold store
    rw [hinactive]
    simp [freeIndex_fst]
  · intro t2 l2 rl2 v2
    unfold store
    by_cases h2 : t2.active = true
    · rw [h2, if_pos rfl]
      by_cases hn : (pushJacobians rl2).length ≠ 0
      · rw [if_pos hn]
      · rw [if_neg hn]
    · rw [if_neg h2]

/-- Witness for C4: an inactive fresh tape; the output identifier ends at
the unused sentinel, nothing is recorded. -/
theorem store_inactive_frees_and_always_writes_primal_witness :
    (JacobianTape.mk false (IndexManagerState.mk [] 3) [] []).active = false ∧
    ((store (JacobianTape.mk false (IndexManagerState.mk [] 3) [] [])
        (ActiveVar.mk 5 7) [((1 : ℚ), 2)] 9).2.identifier = 0 ∧
      (store (JacobianTape.mk false (IndexManagerState.mk [] 3) [] [])
        (ActiveVar.mk 5 7) [((1 : ℚ), 2)] 9).1.stmts = [] ∧
      (store (JacobianTape.mk false (IndexManagerState.mk [] 3) [] [])
        (ActiveVar.mk 5 7) [((1 : ℚ), 2)] 9).1.jacs = []) :=
  ⟨rfl,
   (store_inactive_frees_and_always_writes_primal
      (JacobianTape.mk false (IndexManagerState.mk [] 3) [] [])
      (ActiveVar.mk 5 7) [((1 : ℚ), 2)] 9 rfl).1⟩

/--
C5: `computeJacobian` selects the forward-sweeping path exactly when
`inputSize <= outputSize` and the reverse-sweeping path otherwise; in
particular 2 inputs with 5 outputs gives forward sweeps (one per input)
and 5 inputs with 2 outputs gives reverse sweeps (one per output).
-/
theorem computeJacobian_selects_by_dimension :
    (∀ inputs outputs, getEvaluationChoice inputs outputs = EvaluationType.Forward ↔
      inputs ≤ outputs) ∧
    (∀ inputs outputs, getEvaluationChoice inputs outputs = EvaluationType.Reverse ↔
      ¬ inputs ≤ outputs) ∧
    computeJacobianSweeps 2 5 = List.replicate 2 EvaluationType.Forward ∧
    computeJacobianSweeps 5 2 = List.replicate 2 EvaluationType.Reverse := by
  refine ⟨?_, ?_, by decide, by decide⟩
  · intro inputs outputs
    unfold getEvaluationChoice
    by_cases h : inputs ≤ outputs
    · simp [h]
    · simp [h]
  · intro inputs outputs
    unfold getEvaluationChoice
    by_cases h : inputs ≤ outputs
    · simp [h]
    · simp [h]

/--
C6: Capturing `pos = getPosition()`, pushing any further data on any
nesting levels, then calling `resetTo(pos)` restores the used size of
this stream and of every nested stream to its captured value (the
resulting position equals the captured one) without deallocating storage
(every level's allocated capacity is unchanged by the reset).
-/
theorem getPosition_resetTo_roundtrip (s : StreamData) (pushes : List Nat) :
    getPosition (resetTo (pushes.foldl pushData s) (getPosition s)) = getPosition s ∧
    allocSizes (resetTo (pushes.foldl pushData s) (getPosition s)) =
      allocSizes (pushes.foldl pushData s) := by
  have hshape := sameShape_foldl_pushData pushes s
  exact ⟨getPosition_resetTo_of_sameShape hshape, allocSizes_resetTo_of_sameShape hshape⟩

/--
C7: The two near-duplicate revisions of the copy-assignment `store`
decide identically whether to record a full statement or merely copy the
identifier: for equal values of the index-manager flag
(`CopyNeedsStatement` resp. `AssignNeedsStatement`) and of the config
flag (`CopyOptimization` resp. `AssignOptimization`), the two store
functions compute the same tape state and the same output variable, so
the two flag spellings denote the same policy.
-/
theorem storeCopy_revisions_equivalent (needsStatement optimization : Bool)
    (tape : JacobianTape) (lhs rhs : ActiveVar) :
    storeCopyRev1 needsStatement optimization tape lhs rhs =
      storeCopyRev2 needsStatement optimization tape lhs rhs := rfl

/--
C8: For a handle returned by `reserveItems(n)` and any `k ≤ n` subsequent
`pushData` calls on this stream with no intervening `reserveItems`,
`getPushedDataCount(handle)` returns exactly `k`, computed as current
used size minus the used size recorded at the `reserveItems` call.
-/
theorem getPushedDataCount_counts_pushes (used alloc : Nat) (nested : StreamData)
    (n k : Nat) (h : k ≤ n) :
    getPushedDataCount
        ((List.replicate k 0).foldl pushData (StreamData.block used alloc nested))
        (reserveItems (StreamData.block used alloc nested) n) = k := by
  rw [foldl_pushData_replicate_zero]
  show (used + k) - used = k
  omega

/-- Witness for C8: reserve 3 items on a stream with 2 entries already
used, push 2, observe a pushed-data count of 2. -/
theorem getPushedDataCount_counts_pushes_witness :
    (2 : Nat) ≤ 3 ∧
    getPushedDataCount
        ((List.replicate 2 0).foldl pushData (StreamData.block 2 10 StreamData.terminator))
        (reserveItems (StreamData.block 2 10 StreamData.terminator) 3) = 2 :=
  ⟨by decide, getPushedDataCount_counts_pushes 2 10 StreamData.terminator 3 2 (by decide)⟩

/--
C9: Every call to `primal(identifier)` and to `evaluatePrimal(start, end)`
on the Jacobian-only tape signals an UnsupportedOperation error,
unconditionally (for every identifier, every position range and every
tape state), and leaves the tape state untouched.
-/
theorem primal_access_unsupported :
    ∀ (tape : JacobianTape) (identifier : Nat) (startPos endPos : StreamPos),
    (primal tape identifier).1 = Except.error CodiError.UnsupportedOperation ∧
    (primal tape identifier).2 = tape ∧
    (evaluatePrimal tape startPos endPos).1 = Except.error CodiError.UnsupportedOperation ∧
    (evaluatePrimal tape startPos endPos).2 = tape :=
  fun _ _ _ _ => ⟨rfl, rfl, rfl, rfl⟩

/--
C10: The const overload of `gradient(identifier)` at the failing input:
with the adjoint vector at its initial size 1 and `identifier = 1`
(equal to the size, i.e. at the bound), the guard `identifier >
adjoints.size()` is false and the code reads `adjoints[1]`, one element
past the end of the vector — an out-of-bounds read (`none`) instead of
the in-bounds slot-0 fallback the claim requires.
-/
theorem gradientConst_reads_out_of_bounds_at_size :
    gradientConst [0] 1 = none ∧ ([(0 : ℚ)] : List ℚ).length ≤ 1 := by
  constructor
  · rfl
  · decide

end CoDiPack
